import Mathlib

/-!
Verification of the `strip-media-queries` stripper (`src/stripper.js`).

The development shallowly embeds the stripper's pure core:

* `Node` models a top-level stylesheet node of the external CSS parser's
  AST: a plain rule (opaque content) or an `@media` block carrying its raw
  condition string and its nested child nodes (`rule.type`, `rule.media`,
  `rule.rules` in the source).
* `mediaMatch` embeds `rule.media.match(width + "px")`: the width tokens
  are numeric strings, so the JavaScript regex built from them degenerates
  to a literal substring test.
* The four filter functions, the `filters` table, and `stripFileRules`
  (the pure rule-sequence transform inside `stripFile`, lines 119-143)
  are transcribed from the source.
* File-system reads, the parse cache, and writes are modelled by explicit
  state passing: a file system `String → Option (List Node)` mapping a
  filename to its parsed rule sequence (parsing is an external collaborator,
  so files are modelled as already parsed), a cache of the same shape, a
  `writeOk` predicate saying which paths are writable, and a trace of the
  writes performed.  Serialization (`css.stringify`) is an opaque parameter
  function.  Promise chains become sequential state passing (the source is
  single-threaded cooperative concurrency; `launch` runs the combined phase,
  then, only on success, the stripped phase).  Console logging (`chalk`,
  `console.log`) is dropped; thrown/rejected values are the plain message
  strings, without chalk's color codes.
* `mkStripper` embeds the `Stripper` constructor with globbing abstracted
  as a parameter `String → List String`; JavaScript truthiness of the
  dynamically-typed option values is made explicit via `ConfigVal`.
-/

namespace StripMediaQueries

/-- A top-level stylesheet node: a plain rule with opaque content, or a
media block with its raw condition text and nested child nodes. -/
inductive Node where
  | rule (content : String)
  | media (condition : String) (children : List Node)
deriving Repr

/-- Substring test on character lists: `containsSub pat l` is true iff
`pat` occurs contiguously inside `l`. -/
def containsSub (pat : List Char) : List Char → Bool
  | [] => pat.isEmpty
  | c :: rest => pat.isPrefixOf (c :: rest) || containsSub pat rest

/-- Embeds `cond.match(pat)` from the source, where `pat` is built from a
numeric width token and so carries no regex metacharacters: a literal
substring test of `pat` inside the raw condition text. -/
def mediaMatch (cond : String) (pat : String) : Bool :=
  containsSub pat.toList cond.toList

/-- Embedding of `filterMediaQueriesToExtract` (stripper.js:29-33):
`rule.type === 'media' && extract.some(w => rule.media.match(w + "px"))`. -/
def filterMediaQueriesToExtract (extract : List String) (rule : Node) : Bool :=
  match rule with
  | .rule _ => false
  | .media cond _ => extract.any fun extractWidth => mediaMatch cond (extractWidth ++ "px")

/-- Embedding of `filterMediaQueriesNotToExtract` (stripper.js:43-47):
`rule.type !== 'media' || rule.type === 'media' && extract.every(w => !rule.media.match(w + "px"))`. -/
def filterMediaQueriesNotToExtract (extract : List String) (rule : Node) : Bool :=
  match rule with
  | .rule _ => true
  | .media cond _ => extract.all fun extractWidth => !mediaMatch cond (extractWidth ++ "px")

/-- Embedding of `filterMediaQueries` (stripper.js:57-61):
`rule.type !== 'media' || rule.type === 'media' && widths.every(w => !rule.media.match(w + "px"))`. -/
def filterMediaQueries (widths : List String) (rule : Node) : Bool :=
  match rule with
  | .rule _ => true
  | .media cond _ => widths.all fun width => !mediaMatch cond (width ++ "px")

/-- Embedding of `filterNonMediaQueries` (stripper.js:71-75):
`rule.type === 'media' && widths.some(w => rule.media.match(w + "px"))`. -/
def filterNonMediaQueries (widths : List String) (rule : Node) : Bool :=
  match rule with
  | .rule _ => false
  | .media cond _ => widths.any fun width => mediaMatch cond (width ++ "px")

/-- The keys of the `filters` table (stripper.js:8-13). -/
inductive FilterName where
  | strip
  | original
  | extract
  | stripExtract
deriving DecidableEq, Repr

/-- The `filters` lookup table (stripper.js:8-13). -/
def filters : FilterName → List String → Node → Bool
  | .strip => filterMediaQueries
  | .original => filterNonMediaQueries
  | .extract => filterMediaQueriesToExtract
  | .stripExtract => filterMediaQueriesNotToExtract

/-- Embedding of the destructuring `({ rules }) => rules` (stripper.js:127): project the nested child
rules out of a node.  In the source this destructuring is only ever applied
to nodes that passed the `extract` filter, hence to media nodes; a plain
rule has no `rules` field, modelled here as `[]`. -/
def nodeRules : Node → List Node
  | .rule _ => []
  | .media _ children => children

/-- The pure rule-sequence transform inside `stripFile`
(stripper.js:121-137): one pass with `filters[filter]` over the strip
widths, then — only for the `strip` filter with a non-empty `extract`
option — the unwrap composition: children of extract-matching blocks are
collected (`.map(({rules}) => rules)`), the extract-matching blocks are
removed, and `strippedContent.concat(...extractedContent)` appends the
one-level-flattened children at the end. -/
def stripFileRules (widths extract : List String) (filter : FilterName)
    (rules : List Node) : List Node :=
  let strippedContent := rules.filter (filters filter widths)
  if filter = .strip ∧ extract ≠ [] then
    let extractedContent :=
      (strippedContent.filter (filters .extract extract)).map nodeRules
    let strippedContent2 := strippedContent.filter (filters .stripExtract extract)
    strippedContent2 ++ extractedContent.flatten
  else
    strippedContent

/-- The spec's description of the two-stage strip+extract composition
(spec §4.1, steps (a)-(d)), written from the spec's words: (a) nodes
passing the strip-widths keep-predicate; (b) children of step-(a) nodes
passing the extract predicate, flattened one level; (c) step-(a) nodes
passing the not-extract predicate; (d) = (c) with (b) appended. -/
def strippedFileSpec (stripWidths extractWidths : List String)
    (rules : List Node) : List Node :=
  let stepA := rules.filter (filterMediaQueries stripWidths)
  let stepB := ((stepA.filter (filterMediaQueriesToExtract extractWidths)).map nodeRules).flatten
  let stepC := stepA.filter (filterMediaQueriesNotToExtract extractWidths)
  stepC ++ stepB

/-- A node is a plain (non-media) rule. -/
def isPlainRule : Node → Bool
  | .rule _ => true
  | .media _ _ => false

/-- Every media node of the sequence has only plain-rule children (the
shape the external CSS parser produces in practice: media blocks wrap
ordinary rules). -/
def mediaChildrenPlain (rules : List Node) : Bool :=
  rules.all fun n =>
    match n with
    | .rule _ => true
    | .media _ children => children.all isPlainRule

/-- A parsed file system / parse cache: maps a filename to the parsed rule
sequence of its stylesheet (parsing itself is an external collaborator, so
the stylesheet is modelled by its top-level rules). -/
abbrev ParsedFS := String → Option (List Node)

/-- The resolved run configuration (`this.options` after the defaults
merge and width normalization, stripper.js:272-274). -/
structure Options where
  widths : List String
  extract : List String
  overrideOriginal : Bool
  strippedSuffix : String
  dest : String
  src : Option String
  ignore : Option String
  hasFiles : Bool
  filesSrc : List String
  filesIgnore : List String
deriving Repr

/-- A constructed `Stripper` instance: its resolved options and its
resolved source-file list (`this.options`, `this.files`). -/
structure Stripper where
  options : Options
  files : List String
deriving Repr

/-- Embedding of `getParsedCSS` (stripper.js:98-108): return the cached parse if
present, otherwise read and parse the file and store the result in the
cache.  The returned pair is the result and the cache afterwards. -/
def getParsedCSS (fsys : ParsedFS) (cache : ParsedFS) (filename : String) :
    Except String (List Node) × ParsedFS :=
  match cache filename with
  | some parsed => (.ok parsed, cache)
  | none =>
    match fsys filename with
    | some parsed =>
      (.ok parsed, fun g => if g = filename then some parsed else cache g)
    | none => (.error ("read failed: " ++ filename), cache)

/-- Embedding of `stripFile` (stripper.js:119-143): parse (or fetch cached), apply the
selected filter pass (plus the extract composition inside
`stripFileRules`), and serialize the resulting stylesheet.  `serialize`
abstracts `css.stringify` on a stylesheet carrying the given rules. -/
def stripFile (serialize : List Node → String) (fsys : ParsedFS)
    (st : Stripper) (filter : FilterName) (cache : ParsedFS)
    (filename : String) : Except String String × ParsedFS :=
  match getParsedCSS fsys cache filename with
  | (.ok rules, cache') =>
    (.ok (serialize (stripFileRules st.options.widths st.options.extract filter rules)), cache')
  | (.error e, cache') => (.error e, cache')

/-- Outcome of a phase (or of a whole run): the file writes performed, the
first failure (if any), and the parse cache afterwards. -/
structure PhaseResult where
  writes : List (String × String)
  err : Option String
  cache : ParsedFS

/-- The fan-out inside `writeMediaQueriesFile` (stripper.js:189-195):
serialize every source file through the `original` filter, in file-list
order, threading the parse cache; the phase's content list rejects with
the first read failure. -/
def collectOriginal (serialize : List Node → String) (fsys : ParsedFS)
    (st : Stripper) : List String → ParsedFS → Except String (List String) × ParsedFS
  | [], cache => (.ok [], cache)
  | f :: fs, cache =>
    match stripFile serialize fsys st .original cache f with
    | (.ok content, cache') =>
      match collectOriginal serialize fsys st fs cache' with
      | (.ok contents, cache'') => (.ok (content :: contents), cache'')
      | (.error e, cache'') => (.error e, cache'')
    | (.error e, cache') => (.error e, cache')

/-- Embedding of `writeMediaQueriesFile` (stripper.js:187-199): join the per-file
`original`-filter serializations with a newline and write the joined text
to `options.dest`; the write happens only if every per-file serialization
succeeded, and a failed write rejects the phase. -/
def writeMediaQueriesFile (serialize : List Node → String) (fsys : ParsedFS)
    (writeOk : String → Bool) (st : Stripper) (cache : ParsedFS) : PhaseResult :=
  match collectOriginal serialize fsys st st.files cache with
  | (.ok contents, cache') =>
    if writeOk st.options.dest then
      { writes := [(st.options.dest, String.intercalate "\n" contents)],
        err := none, cache := cache' }
    else
      { writes := [], err := some ("write failed: " ++ st.options.dest), cache := cache' }
  | (.error e, cache') => { writes := [], err := some e, cache := cache' }

/-- The regex replacement `strippedSuffix.replace(/\.css$|\./g, '')`
(stripper.js:160), transcribed as the regex engine's left-to-right scan:
at a dot, the first alternative consumes a trailing `.css` (dot plus
`css` at the very end); otherwise the second alternative consumes the dot
alone; all other characters are kept. -/
def cleanSuffixAux : List Char → List Char
  | [] => []
  | c :: rest =>
    if c = '.' ∧ rest = ['c', 's', 's'] then []
    else if c = '.' then cleanSuffixAux rest
    else c :: cleanSuffixAux rest

/-- The replacement `strippedSuffix.replace(/\.css$|\./g, '')` on strings. -/
def cleanSuffix (s : String) : String :=
  String.mk (cleanSuffixAux s.toList)

/-- JavaScript `String.prototype.replace` with a string pattern: replace
the first occurrence of `pat` only; no occurrence leaves the list
unchanged. -/
def replaceFirstAux (pat repl : List Char) : List Char → List Char
  | [] => []
  | c :: rest =>
    if pat.isPrefixOf (c :: rest) then repl ++ (c :: rest).drop pat.length
    else c :: replaceFirstAux pat repl rest

/-- Embedding of `s.replace(pat, repl)` with a plain string pattern (first occurrence
only). -/
def replaceFirst (s pat repl : String) : String :=
  String.mk (replaceFirstAux pat.toList repl.toList s.toList)

/-- The output path of the stripped file (stripper.js:157-163): the source
filename itself in override mode, otherwise the filename with its first
`.css` occurrence replaced by `.<cleaned suffix>.css`. -/
def strippedPath (o : Options) (filename : String) : String :=
  if o.overrideOriginal then filename
  else replaceFirst filename ".css" ("." ++ cleanSuffix o.strippedSuffix ++ ".css")

/-- Written from the claim's words: drop a trailing `.css` (the last four
characters, when they are exactly `.css`). -/
def stripTrailingCss (l : List Char) : List Char :=
  if ['.', 'c', 's', 's'].isSuffixOf l then l.take (l.length - 4) else l

/-- Written from the claim's words: the suffix `S` — `strippedSuffix` with
a trailing `.css` and every `.` character removed. -/
def suffixSpec (s : String) : String :=
  String.mk ((stripTrailingCss s.toList).filter fun c => c ≠ '.')

/-- The per-file fan-out inside `writeStrippedFile` (stripper.js:154-176):
for each source file compute the stripped-output path, run the `strip`
filter pass, and write; a failure for one file surfaces as the phase's
error but does not prevent the other files' writes. -/
def writeStrippedAux (serialize : List Node → String) (fsys : ParsedFS)
    (writeOk : String → Bool) (st : Stripper) :
    List String → ParsedFS → PhaseResult
  | [], cache => { writes := [], err := none, cache := cache }
  | f :: fs, cache =>
    let path := strippedPath st.options f
    match stripFile serialize fsys st .strip cache f with
    | (.ok content, cache') =>
      let rest := writeStrippedAux serialize fsys writeOk st fs cache'
      if writeOk path then
        { writes := (path, content) :: rest.writes, err := rest.err, cache := rest.cache }
      else
        { writes := rest.writes, err := some ("write failed: " ++ path), cache := rest.cache }
    | (.error e, cache') =>
      let rest := writeStrippedAux serialize fsys writeOk st fs cache'
      { writes := rest.writes, err := some e, cache := rest.cache }

/-- Embedding of `writeStrippedFile` (stripper.js:153-177). -/
def writeStrippedFile (serialize : List Node → String) (fsys : ParsedFS)
    (writeOk : String → Bool) (st : Stripper) (cache : ParsedFS) : PhaseResult :=
  writeStrippedAux serialize fsys writeOk st st.files cache

/-- Embedding of `Stripper.prototype.launch` (stripper.js:286-290): reset the parse
cache, run the combined-extract phase, and only when it resolved run the
stripped-files phase; a combined-phase failure rejects the run before any
stripped write. -/
def launch (serialize : List Node → String) (fsys : ParsedFS)
    (writeOk : String → Bool) (st : Stripper) : PhaseResult :=
  let r1 := writeMediaQueriesFile serialize fsys writeOk st (fun _ => none)
  match r1.err with
  | some e => { writes := r1.writes, err := some e, cache := r1.cache }
  | none =>
    let r2 := writeStrippedFile serialize fsys writeOk st r1.cache
    { writes := r1.writes ++ r2.writes, err := r2.err, cache := r2.cache }

/-- Iterated `stripFile` calls on one filename (each with its filter),
threading only the parse cache: the shape of the cache after any sequence
of `stripFile` invocations. -/
def stripFileCacheRuns (serialize : List Node → String) (fsys : ParsedFS)
    (st : Stripper) (filename : String) : List FilterName → ParsedFS → ParsedFS
  | [], cache => cache
  | flt :: rest, cache =>
    stripFileCacheRuns serialize fsys st filename rest
      (stripFile serialize fsys st flt cache filename).2

/-- Embedding of `filterFileName` (stripper.js:84-88): keep a filename iff it differs
from the destination path and does not match the stripped-suffix pattern
(`new RegExp(strippedSuffix, 'g')`; the default suffix `stripped` has no
regex metacharacters, so the test is a substring test). -/
def filterFileName (o : Options) (filename : String) : Bool :=
  filename != o.dest && !(containsSub o.strippedSuffix.toList filename.toList)

/-- The source-file list before exclusion (stripper.js:209):
`options.src ? glob.sync(options.src) : options.files.src` (an absent
`src` option is falsy). -/
def resolvedSrcFiles (globResolve : String → List String) (o : Options) : List String :=
  match o.src with
  | some pat => globResolve pat
  | none => o.filesSrc

/-- The resolved ignore list (stripper.js:210):
`options.ignore ? glob.sync(options.ignore) : options.files ? options.files.ignore : []`. -/
def resolvedIgnore (globResolve : String → List String) (o : Options) : List String :=
  match o.ignore with
  | some pat => globResolve pat
  | none => if o.hasFiles then o.filesIgnore else []

/-- Embedding of `getFileList` (stripper.js:208-221): throw when the pre-exclusion file
list is empty, otherwise return it filtered by `filterFileName` and by
exact-path exclusion against the ignore list
(`ignore.indexOf(filename) === -1`). -/
def getFileList (globResolve : String → List String) (o : Options) :
    Except String (List String) :=
  if resolvedSrcFiles globResolve o = [] then .error "No files found."
  else
    .ok ((((resolvedSrcFiles globResolve o).filter
        fun filename => filterFileName o filename)).filter
      fun filename => !((resolvedIgnore globResolve o).contains filename))

/-- A concrete glob resolver for witnesses: the source pattern matches
the destination file, a previously generated suffixed file, and an
ignored file alongside an ordinary one. -/
def exGlob : String → List String :=
  fun pat =>
    if pat = "*.css" then ["a.css", "out.css", "b.stripped.css", "ig.css"]
    else if pat = "ig*" then ["ig.css"] else []

/-- A concrete resolved configuration for witnesses. -/
def exOptions : Options :=
  { widths := ["1200"], extract := [], overrideOriginal := false,
    strippedSuffix := "stripped", dest := "out.css", src := some "*.css",
    ignore := some "ig*", hasFiles := false, filesSrc := [], filesIgnore := [] }

/-- A dynamically-typed configuration value, as `convertStringToArray`
(stripper.js:233-251) discriminates them: a string, a number, or an
array/object (whose `Object.keys`-ordered values are string width
tokens). -/
inductive ConfigVal where
  | str (s : String)
  | num (n : Int)
  | arr (items : List String)
deriving Repr

/-- JavaScript truthiness of a configuration value: the empty string and 0
are falsy; every object (arrays included, even empty ones) is truthy. -/
def isTruthy : ConfigVal → Bool
  | .str s => s != ""
  | .num n => n != 0
  | .arr _ => true

/-- Embedding of `convertStringToArray` (stripper.js:233-251): `[]` for a falsy value;
the values of an object/array; a singleton of the decimal rendering of a
number; otherwise the string with whitespace removed, split on commas. -/
def convertStringToArray : Option ConfigVal → List String
  | none => []
  | some v =>
    if isTruthy v then
      match v with
      | .arr items => items
      | .num n => [toString n]
      | .str s => (String.mk (s.toList.filter fun c => !c.isWhitespace)).splitOn ","
    else []

/-- The raw options object handed to the `Stripper` constructor: every
recognized key, absent (`none`) or present.  `hasFiles`, `filesSrc` and
`filesIgnore` model the optional pre-resolved `options.files` object. -/
structure OptionsIn where
  widths : Option ConfigVal := none
  width : Option ConfigVal := none
  dest : Option String := none
  src : Option String := none
  ignore : Option String := none
  extract : Option ConfigVal := none
  overrideOriginal : Option Bool := none
  strippedSuffix : Option String := none
  hasFiles : Bool := false
  filesSrc : List String := []
  filesIgnore : List String := []
deriving Repr

/-- The fallback `options.widths = options.widths || options.width` (stripper.js:260):
the `widths` value when truthy, else the legacy `width` value. -/
def effectiveWidths (o : OptionsIn) : Option ConfigVal :=
  match o.widths with
  | some v => if isTruthy v then some v else o.width
  | none => o.width

/-- Whether the `!options.widths` guard (stripper.js:264) fires: no
`widths`/`width` value, or a falsy one. -/
def widthsMissing (o : OptionsIn) : Bool :=
  match effectiveWidths o with
  | none => true
  | some v => !isTruthy v

/-- Whether the `!options.dest` guard (stripper.js:268) fires. -/
def destMissing (o : OptionsIn) : Bool :=
  match o.dest with
  | none => true
  | some d => d == ""

/-- The defaults merge and width normalization (stripper.js:272-274),
given the effective truthy widths value `wv` and the destination `d`. -/
def resolveOptions (o : OptionsIn) (wv : ConfigVal) (d : String) : Options :=
  { widths := convertStringToArray (some wv)
    extract := convertStringToArray o.extract
    overrideOriginal := o.overrideOriginal.getD false
    strippedSuffix := o.strippedSuffix.getD "stripped"
    dest := d
    src := o.src
    ignore := o.ignore
    hasFiles := o.hasFiles
    filesSrc := o.filesSrc
    filesIgnore := o.filesIgnore }

/-- The `Stripper` constructor (stripper.js:258-276): the widths guard,
the dest guard, the defaults merge, the width/extract normalization, and
the file-list resolution; each `throw` becomes an `Except.error` carrying
the message (chalk coloring dropped). -/
def mkStripper (globResolve : String → List String) (o : OptionsIn) :
    Except String Stripper :=
  match effectiveWidths o with
  | none => .error "You have to specify a widths option"
  | some wv =>
    if isTruthy wv then
      match o.dest with
      | none => .error "You have to specify a dest option"
      | some d =>
        if d == "" then .error "You have to specify a dest option"
        else
          let opts := resolveOptions o wv d
          (getFileList globResolve opts).map fun fl => { options := opts, files := fl }
    else .error "You have to specify a widths option"

/-! ## Theorems -/

/-- C1: for every node sequence, strip-width list and non-empty
extract-width list, the `strip`-filter branch of `stripFile` produces
exactly the spec's composition: the nodes passing
`filterMediaQueries(stripWidths, ·)` restricted to those passing
`filterMediaQueriesNotToExtract(extractWidths, ·)`, with the one-level
flattened children of the step-(a) nodes passing
`filterMediaQueriesToExtract(extractWidths, ·)` appended at the end. -/
theorem stripFileRules_strip_eq_spec (stripWidths extractWidths : List String)
    (rules : List Node) (h : extractWidths ≠ []) :
    stripFileRules stripWidths extractWidths .strip rules =
      strippedFileSpec stripWidths extractWidths rules := by
  simp [stripFileRules, strippedFileSpec, filters, h]

/-- Witness for C1 at a concrete input: one plain rule, one media block
matching the strip width, one media block matching the extract width. -/
theorem stripFileRules_strip_eq_spec_witness :
    (["300"] : List String) ≠ [] ∧
      stripFileRules ["1200"] ["300"] .strip
        [Node.rule ".x",
         Node.media "(min-width: 1200px)" [Node.rule ".y"],
         Node.media "(min-width: 300px)" [Node.rule ".z"]] =
      strippedFileSpec ["1200"] ["300"]
        [Node.rule ".x",
         Node.media "(min-width: 1200px)" [Node.rule ".y"],
         Node.media "(min-width: 300px)" [Node.rule ".z"]] :=
  ⟨by simp, stripFileRules_strip_eq_spec ["1200"] ["300"] _ (by simp)⟩

/-- C2: `filterMediaQueries` and `filterNonMediaQueries` partition the
nodes: for every widths list and node, no node satisfies both and no node
satisfies neither. -/
theorem filterMediaQueries_partition (widths : List String) (n : Node) :
    (filterMediaQueries widths n && filterNonMediaQueries widths n) = false ∧
    (filterMediaQueries widths n || filterNonMediaQueries widths n) = true := by
  cases n with
  | rule c => simp [filterMediaQueries, filterNonMediaQueries]
  | media cond cs =>
    simp only [filterMediaQueries, filterNonMediaQueries,
      List.all_eq_not_any_not, Bool.not_not]
    cases widths.any fun width => mediaMatch cond (width ++ "px") <;> simp

/-- C3: width matching is a literal substring test: for every media block
whose condition is "(min-width: 1200px)", whatever its children, width
"200" matches (the string "200px" occurs inside "1200px"), so
`filterNonMediaQueries ["200"]` classifies the block as a matching media
query. -/
theorem filterNonMediaQueries_substring_collision (cs : List Node) :
    filterNonMediaQueries ["200"] (Node.media "(min-width: 1200px)" cs) = true := by
  rfl

theorem notToExtract_eq_not_toExtract (extract : List String) (n : Node) :
    filterMediaQueriesNotToExtract extract n = !filterMediaQueriesToExtract extract n := by
  cases n with
  | rule c => rfl
  | media cond cs =>
    simp [filterMediaQueriesNotToExtract, filterMediaQueriesToExtract,
      List.all_eq_not_any_not, Bool.not_not]

theorem plain_passes_filters (widths extract : List String) (n : Node)
    (h : isPlainRule n = true) :
    filterMediaQueries widths n = true ∧
      filterMediaQueriesNotToExtract extract n = true ∧
      filterMediaQueriesToExtract extract n = false := by
  cases n with
  | rule c => exact ⟨rfl, rfl, rfl⟩
  | media cond cs => simp [isPlainRule] at h

/-- The strip transform fixes any sequence whose members all pass the
strip-widths filter and the not-to-extract filter. -/
theorem stripFileRules_strip_fixed (widths extract : List String) (O : List Node)
    (hMQ : ∀ x ∈ O, filterMediaQueries widths x = true)
    (hNTE : ∀ x ∈ O, filterMediaQueriesNotToExtract extract x = true) :
    stripFileRules widths extract .strip O = O := by
  have h1 : O.filter (filterMediaQueries widths) = O := List.filter_eq_self.mpr hMQ
  have h2 : O.filter (filterMediaQueriesToExtract extract) = [] := by
    refine List.filter_eq_nil_iff.mpr fun x hx => ?_
    have := hNTE x hx
    rw [notToExtract_eq_not_toExtract] at this
    simp only [Bool.not_eq_true'] at this
    simp [this]
  have h3 : O.filter (filterMediaQueriesNotToExtract extract) = O :=
    List.filter_eq_self.mpr hNTE
  by_cases he : extract = []
  · simp [stripFileRules, filters, he, h1]
  · simp [stripFileRules, filters, he, h1, h2, h3]

/-- C8 as stated is false: with strip widths ["400"], extract widths
["300"], and a single media block for 300px whose child is itself a media
block for 400px, the first pass promotes the inner 400px block to top
level and the second pass removes it, so the transform is not idempotent
on this sequence. -/
theorem stripFileRules_strip_not_idempotent :
    stripFileRules ["400"] ["300"] .strip
        (stripFileRules ["400"] ["300"] .strip
          [Node.media "(min-width: 300px)" [Node.media "(min-width: 400px)" []]]) ≠
      stripFileRules ["400"] ["300"] .strip
        [Node.media "(min-width: 300px)" [Node.media "(min-width: 400px)" []]] := by
  have h1 : stripFileRules ["400"] ["300"] .strip
      [Node.media "(min-width: 300px)" [Node.media "(min-width: 400px)" []]] =
      [Node.media "(min-width: 400px)" []] := rfl
  have h2 : stripFileRules ["400"] ["300"] .strip
      [Node.media "(min-width: 400px)" []] = [] := rfl
  rw [h1, h2]
  simp

/-- C8 amended: when every media node of the sequence has only plain-rule
children (the shape CSS parsing produces in practice, and the situation the
claim's parenthetical "unwrapped children are plain Rule nodes" describes),
the strip-branch transform is idempotent: applying it to its own output
changes nothing, because the output contains no media block matching the
strip widths and none matching the extract widths. -/
theorem stripFileRules_strip_idempotent (widths extract : List String)
    (rules : List Node) (h : mediaChildrenPlain rules = true) :
    stripFileRules widths extract .strip
        (stripFileRules widths extract .strip rules) =
      stripFileRules widths extract .strip rules := by
  by_cases he : extract = []
  · subst he
    simp [stripFileRules, filters, List.filter_filter]
  · have hplain : ∀ x ∈ stripFileRules widths extract .strip rules,
        x ∈ ((rules.filter (filterMediaQueries widths)).filter
              (filterMediaQueriesNotToExtract extract)) ∨ isPlainRule x = true := by
      intro x hx
      simp only [stripFileRules, filters, he, ne_eq, not_false_iff, and_true,
        if_pos, List.mem_append] at hx
      rcases hx with hx | hx
      · left; exact hx
      · right
        rw [List.mem_flatten] at hx
        obtain ⟨l, hl, hxl⟩ := hx
        rw [List.mem_map] at hl
        obtain ⟨m, hm, rfl⟩ := hl
        rw [List.mem_filter] at hm
        obtain ⟨hmA, hmTE⟩ := hm
        rw [List.mem_filter] at hmA
        obtain ⟨hmRules, _⟩ := hmA
        have hall := (List.all_eq_true.mp h) m hmRules
        cases m with
        | rule c => simp [nodeRules] at hxl
        | media cond cs =>
          simp only [nodeRules] at hxl
          exact (List.all_eq_true.mp hall) x hxl
    refine stripFileRules_strip_fixed widths extract _ ?_ ?_ <;>
      intro x hx <;> rcases hplain x hx with hmem | hpl
    · rw [List.mem_filter] at hmem
      rw [List.mem_filter] at hmem
      exact hmem.1.2
    · exact (plain_passes_filters widths extract x hpl).1
    · rw [List.mem_filter] at hmem
      exact hmem.2
    · exact (plain_passes_filters widths extract x hpl).2.1

/-- Witness for the amended C8 at a concrete input: a plain rule, a media
block that the strip widths remove, and a media block whose plain child is
unwrapped by the extract pass. -/
theorem stripFileRules_strip_idempotent_witness :
    mediaChildrenPlain
        [Node.rule ".x",
         Node.media "(min-width: 1200px)" [Node.rule ".y"],
         Node.media "(min-width: 300px)" [Node.rule ".z"]] = true ∧
      stripFileRules ["1200"] ["300"] .strip
          (stripFileRules ["1200"] ["300"] .strip
            [Node.rule ".x",
             Node.media "(min-width: 1200px)" [Node.rule ".y"],
             Node.media "(min-width: 300px)" [Node.rule ".z"]]) =
        stripFileRules ["1200"] ["300"] .strip
          [Node.rule ".x",
           Node.media "(min-width: 1200px)" [Node.rule ".y"],
           Node.media "(min-width: 300px)" [Node.rule ".z"]] :=
  ⟨rfl, stripFileRules_strip_idempotent ["1200"] ["300"] _ rfl⟩

theorem stripFileRules_original_extract_irrelevant
    (widths e₁ e₂ : List String) (rules : List Node) :
    stripFileRules widths e₁ .original rules =
      stripFileRules widths e₂ .original rules := by
  simp [stripFileRules]

theorem stripFile_original_extract_irrelevant
    (serialize : List Node → String) (fsys : ParsedFS) (st : Stripper)
    (e₁ e₂ : List String) (cache : ParsedFS) (f : String) :
    stripFile serialize fsys { st with options := { st.options with extract := e₁ } }
        .original cache f =
      stripFile serialize fsys { st with options := { st.options with extract := e₂ } }
        .original cache f := by
  simp only [stripFile]
  rcases h : getParsedCSS fsys cache f with ⟨res, cache'⟩
  cases res with
  | ok rules =>
    simp [stripFileRules_original_extract_irrelevant st.options.widths e₁ e₂ rules]
  | error e => rfl

theorem collectOriginal_extract_irrelevant
    (serialize : List Node → String) (fsys : ParsedFS) (st : Stripper)
    (e₁ e₂ : List String) (fl : List String) (cache : ParsedFS) :
    collectOriginal serialize fsys { st with options := { st.options with extract := e₁ } }
        fl cache =
      collectOriginal serialize fsys { st with options := { st.options with extract := e₂ } }
        fl cache := by
  induction fl generalizing cache with
  | nil => rfl
  | cons f fs ih =>
    simp only [collectOriginal]
    rw [stripFile_original_extract_irrelevant serialize fsys st e₁ e₂ cache f]
    rcases h : stripFile serialize fsys
        { st with options := { st.options with extract := e₂ } } .original cache f with ⟨res, cache'⟩
    cases res with
    | ok content => simp only; rw [ih]
    | error e => rfl

/-- C6: the combined-extract phase is unaffected by the extract
configuration: for every file system, serializer, write permission map,
initial cache, and any two extract-width lists, `writeMediaQueriesFile`
(which runs the `original` filter pass over every input file and writes
the joined result to `dest`) produces the identical outcome — the same
writes (hence the same content written to `dest`), the same error, and
the same cache. -/
theorem writeMediaQueriesFile_extract_irrelevant
    (serialize : List Node → String) (fsys : ParsedFS)
    (writeOk : String → Bool) (st : Stripper) (e₁ e₂ : List String)
    (cache : ParsedFS) :
    writeMediaQueriesFile serialize fsys writeOk
        { st with options := { st.options with extract := e₁ } } cache =
      writeMediaQueriesFile serialize fsys writeOk
        { st with options := { st.options with extract := e₂ } } cache := by
  simp only [writeMediaQueriesFile]
  rw [collectOriginal_extract_irrelevant serialize fsys st e₁ e₂]

theorem writeMediaQueriesFile_write_fail
    (serialize : List Node → String) (fsys : ParsedFS)
    (writeOk : String → Bool) (st : Stripper) (cache : ParsedFS)
    (h : writeOk st.options.dest = false) :
    (writeMediaQueriesFile serialize fsys writeOk st cache).writes = [] ∧
      (writeMediaQueriesFile serialize fsys writeOk st cache).err.isSome = true := by
  simp only [writeMediaQueriesFile]
  rcases hc : collectOriginal serialize fsys st st.files cache with ⟨res, cache'⟩
  cases res with
  | ok contents => simp [h]
  | error e => simp

/-- C4: the stripped-files phase runs only after the combined phase
resolved: `launch` sequences `writeMediaQueriesFile` before
`writeStrippedFile` through the promise chain, so when the combined-file
write fails, the run rejects and performs no write at all — in
particular, no stripped file is written. -/
theorem launch_combined_write_failure_no_stripped_writes
    (serialize : List Node → String) (fsys : ParsedFS)
    (writeOk : String → Bool) (st : Stripper)
    (h : writeOk st.options.dest = false) :
    (launch serialize fsys writeOk st).err.isSome = true ∧
      (launch serialize fsys writeOk st).writes = [] := by
  have hw := writeMediaQueriesFile_write_fail serialize fsys writeOk st (fun _ => none) h
  obtain ⟨e, he⟩ := Option.isSome_iff_exists.mp hw.2
  simp only [launch]
  rw [he]
  simp [hw.1]

/-- Witness for C4 at a concrete run: one source file, every path
unwritable; the run rejects with no writes. -/
theorem launch_combined_write_failure_witness :
    ((fun _ => false : String → Bool) "out.css" = false) ∧
      ((launch (fun rules => toString rules.length)
            (fun f => if f = "a.css" then some [Node.rule ".x"] else none)
            (fun _ => false)
            { options := { widths := ["1200"], extract := [], overrideOriginal := false,
                           strippedSuffix := "stripped", dest := "out.css", src := none,
                           ignore := none, hasFiles := false, filesSrc := [],
                           filesIgnore := [] },
              files := ["a.css"] }).err.isSome = true ∧
        (launch (fun rules => toString rules.length)
            (fun f => if f = "a.css" then some [Node.rule ".x"] else none)
            (fun _ => false)
            { options := { widths := ["1200"], extract := [], overrideOriginal := false,
                           strippedSuffix := "stripped", dest := "out.css", src := none,
                           ignore := none, hasFiles := false, filesSrc := [],
                           filesIgnore := [] },
              files := ["a.css"] }).writes = []) :=
  ⟨rfl, launch_combined_write_failure_no_stripped_writes _ _ _ _ rfl⟩

theorem option_or_or_self {α : Type} (x y : Option α) : (x.or y).or y = x.or y := by
  cases x <;> cases y <;> rfl

theorem getParsedCSS_cache_entry (fsys cache : ParsedFS) (filename : String) :
    (getParsedCSS fsys cache filename).2 filename = (cache filename).or (fsys filename) := by
  unfold getParsedCSS
  cases hc : cache filename with
  | some v => simp [hc]
  | none =>
    cases hf : fsys filename with
    | some v => simp [hc, hf]
    | none => simp [hc, hf]

theorem stripFile_cache_entry (serialize : List Node → String) (fsys : ParsedFS)
    (st : Stripper) (flt : FilterName) (cache : ParsedFS) (filename : String) :
    (stripFile serialize fsys st flt cache filename).2 filename =
      (cache filename).or (fsys filename) := by
  simp only [stripFile]
  rcases h : getParsedCSS fsys cache filename with ⟨res, cache'⟩
  have hc : (getParsedCSS fsys cache filename).2 filename =
      (cache filename).or (fsys filename) := getParsedCSS_cache_entry fsys cache filename
  rw [h] at hc
  cases res with
  | ok rules => exact hc
  | error e => exact hc

/-- C9: `stripFile` never mutates the cached parse: after any positive
number of `stripFile` calls on a filename (with any filters), the cache
entry for that filename is exactly the entry `getParsedCSS` produced on
the first access — the original parsed rule sequence — never the filtered
one; the filter passes only build new sequences around the cached nodes. -/
theorem stripFileCacheRuns_cache_immutable (serialize : List Node → String)
    (fsys : ParsedFS) (st : Stripper) (filename : String)
    (flt : FilterName) (rest : List FilterName) (cache : ParsedFS) :
    stripFileCacheRuns serialize fsys st filename (flt :: rest) cache filename =
      (getParsedCSS fsys cache filename).2 filename := by
  rw [getParsedCSS_cache_entry]
  induction rest generalizing flt cache with
  | nil =>
    simp only [stripFileCacheRuns]
    exact stripFile_cache_entry serialize fsys st flt cache filename
  | cons f2 r2 ih =>
    simp only [stripFileCacheRuns]
    have step := stripFile_cache_entry serialize fsys st flt cache filename
    have := ih f2 (stripFile serialize fsys st flt cache filename).2
    simp only [stripFileCacheRuns] at this
    rw [this, step, option_or_or_self]

/-- C7: every filename in the resolved source-file list differs from the
configured destination path, does not contain the configured
`strippedSuffix` as a substring, and is not a member of the resolved
ignore list. -/
theorem getFileList_excludes (globResolve : String → List String) (o : Options)
    (l : List String) (h : getFileList globResolve o = .ok l)
    (f : String) (hf : f ∈ l) :
    f ≠ o.dest ∧ containsSub o.strippedSuffix.toList f.toList = false ∧
      (resolvedIgnore globResolve o).contains f = false := by
  unfold getFileList at h
  split at h
  · exact absurd h (by simp)
  · simp only [Except.ok.injEq] at h
    subst h
    rw [List.mem_filter] at hf
    obtain ⟨hf1, hq⟩ := hf
    rw [List.mem_filter] at hf1
    obtain ⟨_, hp⟩ := hf1
    simp only [filterFileName, Bool.and_eq_true, bne_iff_ne, ne_eq,
      Bool.not_eq_true'] at hp
    exact ⟨hp.1, hp.2, by simpa using hq⟩

/-- Witness for C7 at a concrete configuration: the glob matches the
destination, a previously generated `.stripped.` file and an ignored
file, and all three are excluded. -/
theorem getFileList_excludes_witness :
    getFileList exGlob exOptions = .ok ["a.css"] ∧
    "a.css" ∈ ["a.css"] ∧
    ("a.css" ≠ exOptions.dest ∧
      containsSub exOptions.strippedSuffix.toList "a.css".toList = false ∧
      (resolvedIgnore exGlob exOptions).contains "a.css" = false) :=
  ⟨rfl, by simp,
    getFileList_excludes exGlob exOptions ["a.css"] rfl "a.css" (by simp)⟩

/-- C5 as stated is false on the empty-after-exclusion case: when the
glob matches exactly the destination file (so the pre-exclusion list is
non-empty but the post-exclusion list is empty), the constructor does not
throw — it succeeds with an empty file list, because `getFileList` checks
emptiness before the dest/suffix/ignore filters, not after. -/
theorem mkStripper_ok_on_empty_filtered_list :
    (mkStripper (fun pat => if pat = "*.css" then ["out.css"] else [])
        { widths := some (.str "100"), dest := some "out.css",
          src := some "*.css" }).isOk = true ∧
    (mkStripper (fun pat => if pat = "*.css" then ["out.css"] else [])
        { widths := some (.str "100"), dest := some "out.css",
          src := some "*.css" }).toOption.map Stripper.files = some [] :=
  ⟨rfl, rfl⟩

/-- C5 amended: construction fails eagerly — before reading or writing
any file, the constructor being a pure function of the options and the
glob results — with a message naming the missing item, when the
widths/width option is absent (or falsy), when the dest option is absent
(or empty), or when the glob-resolved source list is empty BEFORE the
dest/suffix/ignore exclusions (an empty post-exclusion list with a
non-empty glob result does not throw). -/
theorem mkStripper_eager_config_errors (globResolve : String → List String)
    (o : OptionsIn) :
    (widthsMissing o = true →
      mkStripper globResolve o = .error "You have to specify a widths option") ∧
    (widthsMissing o = false → destMissing o = true →
      mkStripper globResolve o = .error "You have to specify a dest option") ∧
    (∀ wv d, effectiveWidths o = some wv → isTruthy wv = true →
      o.dest = some d → (d == "") = false →
      resolvedSrcFiles globResolve (resolveOptions o wv d) = [] →
      mkStripper globResolve o = .error "No files found.") := by
  refine ⟨?_, ?_, ?_⟩
  · intro h
    unfold mkStripper
    cases he : effectiveWidths o with
    | none => rfl
    | some v =>
      have hv : isTruthy v = false := by
        unfold widthsMissing at h
        rw [he] at h
        simpa using h
      simp [hv]
  · intro h1 h2
    unfold mkStripper
    cases he : effectiveWidths o with
    | none =>
      exfalso
      unfold widthsMissing at h1
      rw [he] at h1
      simp at h1
    | some v =>
      have hv : isTruthy v = true := by
        unfold widthsMissing at h1
        rw [he] at h1
        simpa using h1
      unfold destMissing at h2
      cases hd : o.dest with
      | none => simp [hv]
      | some d =>
        rw [hd] at h2
        simp only at h2
        simp [hv, h2]
  · intro wv d he ht hd hde hfl
    simp [mkStripper, he, ht, hd, hde, getFileList, hfl, Except.map]

/-- Witness for the amended C5: the three configuration errors at three
concrete option objects. -/
theorem mkStripper_eager_config_errors_witness :
    mkStripper exGlob {} = .error "You have to specify a widths option" ∧
    mkStripper exGlob { widths := some (.str "100") } =
      .error "You have to specify a dest option" ∧
    mkStripper (fun _ => [])
        { widths := some (.str "100"), dest := some "out.css", src := some "*.css" } =
      .error "No files found." :=
  ⟨(mkStripper_eager_config_errors exGlob {}).1 rfl,
   (mkStripper_eager_config_errors exGlob { widths := some (.str "100") }).2.1 rfl rfl,
   (mkStripper_eager_config_errors (fun _ => [])
      { widths := some (.str "100"), dest := some "out.css", src := some "*.css" }).2.2
     (.str "100") "out.css" rfl rfl rfl rfl rfl⟩

/-- The regex scan `replace(/\.css$|\./g, '')` computes exactly: drop a
trailing `.css`, then drop every remaining dot. -/
theorem cleanSuffixAux_eq_spec (l : List Char) :
    cleanSuffixAux l = (stripTrailingCss l).filter (fun c => c ≠ '.') := by
  induction l with
  | nil => rfl
  | cons c rest ih =>
    by_cases hcs : c = '.' ∧ rest = ['c', 's', 's']
    · obtain ⟨hc, hr⟩ := hcs
      subst hc
      subst hr
      rfl
    · have hnoteq : ¬ (['.', 'c', 's', 's'] = c :: rest) := by
        intro heq
        injection heq with h1 h2
        exact hcs ⟨h1.symm, h2.symm⟩
      have hiff : (['.', 'c', 's', 's'] <:+ (c :: rest)) ↔ (['.', 'c', 's', 's'] <:+ rest) :=
        ⟨fun h => (List.suffix_cons_iff.mp h).resolve_left hnoteq,
         fun h => List.suffix_cons_iff.mpr (Or.inr h)⟩
      have hstrip : stripTrailingCss (c :: rest) = c :: stripTrailingCss rest ∨
          (stripTrailingCss (c :: rest) = c :: rest ∧ stripTrailingCss rest = rest) := by
        by_cases hs : ['.', 'c', 's', 's'] <:+ rest
        · left
          have h4 : 4 ≤ rest.length := by
            have := List.IsSuffix.length_le hs
            simpa using this
          unfold stripTrailingCss
          rw [if_pos (List.isSuffixOf_iff_suffix.mpr (hiff.mpr hs)),
              if_pos (List.isSuffixOf_iff_suffix.mpr hs)]
          simp only [List.length_cons]
          have harith : rest.length + 1 - 4 = (rest.length - 4) + 1 := by omega
          rw [harith, List.take_succ_cons]
        · refine Or.inr ⟨?_, ?_⟩
          · unfold stripTrailingCss
            rw [if_neg fun hb => hs (hiff.mp (List.isSuffixOf_iff_suffix.mp hb))]
          · unfold stripTrailingCss
            rw [if_neg fun hb => hs (List.isSuffixOf_iff_suffix.mp hb)]
      rcases hstrip with he | ⟨he1, he2⟩
      · rw [he]
        by_cases hc : c = '.'
        · subst hc
          have hL : cleanSuffixAux ('.' :: rest) = cleanSuffixAux rest := by
            have hr : rest ≠ ['c', 's', 's'] := fun hr => hcs ⟨rfl, hr⟩
            simp [cleanSuffixAux, hr]
          rw [hL, ih]
          simp [List.filter_cons]
        · have hL : cleanSuffixAux (c :: rest) = c :: cleanSuffixAux rest := by
            simp only [cleanSuffixAux]
            rw [if_neg hcs, if_neg hc]
          rw [hL, ih]
          simp [List.filter_cons, hc]
      · rw [he1]
        by_cases hc : c = '.'
        · subst hc
          have hL : cleanSuffixAux ('.' :: rest) = cleanSuffixAux rest := by
            have hr : rest ≠ ['c', 's', 's'] := fun hr => hcs ⟨rfl, hr⟩
            simp [cleanSuffixAux, hr]
          rw [hL, ih, he2]
          simp [List.filter_cons]
        · have hL : cleanSuffixAux (c :: rest) = c :: cleanSuffixAux rest := by
            simp only [cleanSuffixAux]
            rw [if_neg hcs, if_neg hc]
          rw [hL, ih, he2]
          simp [List.filter_cons, hc]

/-- A first-occurrence replacement with no occurrence of the pattern
leaves the list unchanged. -/
theorem replaceFirstAux_of_not_contains (pat repl l : List Char)
    (h : containsSub pat l = false) :
    replaceFirstAux pat repl l = l := by
  induction l with
  | nil => rfl
  | cons c rest ih =>
    simp only [containsSub, Bool.or_eq_false_iff] at h
    have h1 : ¬ (pat.isPrefixOf (c :: rest) = true) := by simp [h.1]
    simp only [replaceFirstAux]
    rw [if_neg h1, ih h.2]

/-- C10: with `overrideOriginal` false, the stripped-output path is the
source filename with only its first `.css` occurrence replaced by
`"." ++ S ++ ".css"`, where `S` is `strippedSuffix` with a trailing
`.css` and every dot removed; and a filename with no `.css` substring
maps to itself, so the source file itself is the write target despite
`overrideOriginal` being false. -/
theorem strippedPath_spec (o : Options) (filename : String)
    (ho : o.overrideOriginal = false) :
    strippedPath o filename =
      replaceFirst filename ".css" ("." ++ suffixSpec o.strippedSuffix ++ ".css") ∧
    (containsSub ".css".toList filename.toList = false →
      strippedPath o filename = filename) := by
  have hsuffix : cleanSuffix o.strippedSuffix = suffixSpec o.strippedSuffix := by
    unfold cleanSuffix suffixSpec
    rw [cleanSuffixAux_eq_spec]
  constructor
  · simp [strippedPath, ho, hsuffix]
  · intro hocc
    simp only [strippedPath, ho, Bool.false_eq_true, if_false]
    unfold replaceFirst
    rw [replaceFirstAux_of_not_contains _ _ _ hocc]
    rfl

/-- Witness for C10: the default suffix and a filename without any
`.css` substring, which is returned unchanged. -/
theorem strippedPath_spec_witness :
    ({ exOptions with overrideOriginal := false } : Options).overrideOriginal = false ∧
    strippedPath { exOptions with overrideOriginal := false } "style.txt" =
      replaceFirst "style.txt" ".css"
        ("." ++ suffixSpec ({ exOptions with overrideOriginal := false } : Options).strippedSuffix ++ ".css") ∧
    containsSub ".css".toList "style.txt".toList = false ∧
    strippedPath { exOptions with overrideOriginal := false } "style.txt" = "style.txt" :=
  ⟨rfl,
   (strippedPath_spec { exOptions with overrideOriginal := false } "style.txt" rfl).1,
   rfl,
   (strippedPath_spec { exOptions with overrideOriginal := false } "style.txt" rfl).2 rfl⟩

end StripMediaQueries
